import Mathlib

/-!
Verification development for the Jive website-processing pipeline
(`website-processor/roger_website_parser.py`, `website-processor/path_based_processor.py`).

Page content is modelled as `List Char`; Python's `str.find`, slicing and
concatenation become explicit list operations.  Python dicts become
association lists with insertion-order-preserving overwrite (`dictInsert`),
and Python's stable `list.sort(key=..., reverse=True)` becomes the stable
insertion sort `sortByDesc`.
-/

/-- Page content (Python `str`) as a list of characters. -/
abbrev Content := List Char

/-- `True` iff `pat` occurs in `hay` starting at index `pos`
(Python `hay[pos:pos+len(pat)] == pat`). -/
def matchesAt (hay pat : Content) (pos : Nat) : Bool :=
  decide ((hay.drop pos).take pat.length = pat)

/-- Python `hay.find(pat, s)`: index of the first occurrence of `pat` in `hay`
at position `≥ s`, or `none` where Python returns `-1`. -/
def pyFind (hay pat : Content) (s : Nat) : Option Nat :=
  (List.range (hay.length + 1)).find? (fun p => decide (s ≤ p) && matchesAt hay pat p)

/-- Python `hay.rfind(pat)`: index of the last occurrence of `pat` in `hay`,
`none` where Python returns `-1`. -/
def pyRFind (hay pat : Content) : Option Nat :=
  ((List.range (hay.length + 1)).filter (fun p => matchesAt hay pat p)).getLast?

/-- Python `pat in hay` (substring containment). -/
def containsSub (hay pat : Content) : Bool :=
  (pyFind hay pat 0).isSome

/-- The whitespace characters removed by Python `str.strip()` (ASCII part). -/
def isPySpace (c : Char) : Bool :=
  c = ' ' || c = '\t' || c = '\n' || c = '\r' || c = '\x0b' || c = '\x0c'

/-- Python `s.strip()`. -/
def pyStrip (s : Content) : Content :=
  ((s.dropWhile isPySpace).reverse.dropWhile isPySpace).reverse

/-- Python dict assignment `m[k] = v` on an insertion-ordered association
list: overwriting an existing key keeps its position, a new key is appended. -/
def dictInsert {κ α : Type} [DecidableEq κ] (m : List (κ × α)) (k : κ) (v : α) :
    List (κ × α) :=
  if m.any (fun p => decide (p.1 = k)) then
    m.map (fun p => if p.1 = k then (k, v) else p)
  else
    m ++ [(k, v)]

/-- One insertion step of the stable descending insertion sort: `x` is placed
before the first element with a key `≤` its own, so elements equal in key keep
their original relative order (Python's stable `sort(..., reverse=True)`). -/
def insertByDesc {α : Type} (key : α → Nat) (x : α) : List α → List α
  | [] => [x]
  | y :: ys => if key y ≤ key x then x :: y :: ys else y :: insertByDesc key x ys

/-- Stable sort by `key`, descending — Python `l.sort(key=key, reverse=True)`. -/
def sortByDesc {α : Type} (key : α → Nat) : List α → List α
  | [] => []
  | x :: xs => insertByDesc key x (sortByDesc key xs)

/-! ## Data model (`WebsiteNode`, page records, block registry) -/

/-- One crawled page record, as loaded from the input JSON. -/
structure Page where
  url : String
  title : String
  content : Content
  category : String
  is_product : Bool
  deriving DecidableEq, Repr

/-- A `WebsiteNode` as far as node creation is concerned. `full_url` is set
only on the master node (`WebsiteNode.__init__` leaves it `None`). -/
structure Node where
  path : String
  title : String
  content : Content
  category : String
  is_product : Bool
  full_url : Option String
  deriving DecidableEq, Repr

/-- A value of the `common_blocks` registry dict: the fields stored by
`_extract_predefined_blocks` / `_detect_repeated_content_blocks`.  Predefined
entries omit the `auto_detected` / `confidence` keys; `block.get("auto_detected",
False)` is modelled by storing `false`, and the absent `confidence` as `(0, 0)`.
The confidence float `occurrences / len(pages)` is recorded exactly, as the
unreduced pair (numerator, denominator). -/
structure BlockEntry where
  name : String
  type : String
  content : Content
  occurrences : List String
  auto_detected : Bool
  confidence : Nat × Nat
  deriving DecidableEq, Repr

/-- An element of the `blocks_to_replace` list built by
`_replace_common_blocks_in_content`: a registry entry together with its dict
key (`id`) and the defaulted `is_auto` flag. -/
structure Block where
  id : String
  name : String
  content : Content
  occurrences : List String
  is_auto : Bool
  deriving DecidableEq, Repr

/-- A recorded replacement span, as appended to the `replacements` list:
`{"start": pos, "end": pos + len(block_content), "replacement": f"[{name}]",
"block_id": id}`. -/
structure Replacement where
  start : Nat
  «end» : Nat
  replacement : Content
  block_id : String
  deriving DecidableEq, Repr

/-- The reference token `f"[{block_name}]"`. -/
def refToken (name : String) : Content :=
  '[' :: name.data ++ [']']

/-! ## Content rewriter (`_replace_common_blocks_in_content`,
`_remove_overlapping_replacements`) -/

/-- The skip test at the top of the per-block loop:
`if node_url and node_url not in block["occurrences"] and not block.get("is_auto", False): continue`.
`node_url` is `None` for every node but the master node. -/
def skipBlock (node_url : Option String) (b : Block) : Bool :=
  match node_url with
  | none => false
  | some u => !(b.occurrences.contains u) && !b.is_auto

/-- The inner `while True` scan of one block over the content: find successive
occurrences with `content.find(block_content, start_pos)` and record a
replacement span for each, resuming after the end of the previous occurrence.
`fuel` makes the recursion structural; `content.length + 1` is always enough
fuel when the block content is non-empty (Python diverges on an empty block). -/
def findReplLoop (content pat : Content) (name id : String) :
    Nat → Nat → List Replacement
  | 0, _ => []
  | fuel + 1, s =>
    match pyFind content pat s with
    | none => []
    | some p =>
      { start := p, «end» := p + pat.length, replacement := refToken name,
        block_id := id } ::
      findReplLoop content pat name id fuel (p + pat.length)

/-- `blocks_to_replace`: every registry entry keyed with its id, sorted by
content length descending (stable). -/
def blocksToReplace (registry : List (String × BlockEntry)) : List Block :=
  sortByDesc (fun b => b.content.length)
    (registry.map (fun kv =>
      { id := kv.1, name := kv.2.name, content := kv.2.content,
        occurrences := kv.2.occurrences, is_auto := kv.2.auto_detected }))

/-- All replacement spans recorded for one node: the per-block loop over the
(already sorted) `blocks_to_replace` list, with the occurrence-membership skip. -/
def collectReplacements (blocks_to_replace : List Block) (node_url : Option String)
    (content : Content) : List Replacement :=
  (blocks_to_replace.filter (fun b => !skipBlock node_url b)).flatMap
    (fun b => findReplLoop content b.content b.name b.id (content.length + 1) 0)

/-- `_remove_overlapping_replacements`, with the running `covered_positions`
set as an explicit argument: a span is accepted iff none of its character
positions is already covered, and accepted spans add their positions. -/
def removeOverlapping : List Replacement → List Nat → List Replacement
  | [], _ => []
  | r :: rs, covered =>
    if (List.range' r.start (r.«end» - r.start)).any (fun p => covered.contains p) then
      removeOverlapping rs covered
    else
      r :: removeOverlapping rs (covered ++ List.range' r.start (r.«end» - r.start))

/-- The spans the rewriter actually applies to a node: collect spans block by
block (longest block first), sort them by start position descending, then drop
overlaps. -/
def appliedReplacements (blocks_to_replace : List Block) (node_url : Option String)
    (content : Content) : List Replacement :=
  removeOverlapping
    (sortByDesc (fun r => r.start)
      (collectReplacements blocks_to_replace node_url content)) []

/-- `content = content[:r["start"]] + r["replacement"] + content[r["end"]:]`
applied for each accepted replacement in list order (descending start). -/
def applyReplacements : List Replacement → Content → Content
  | [], c => c
  | r :: rs, c =>
    applyReplacements rs (c.take r.start ++ r.replacement ++ c.drop r.«end»)

/-- `blocks_to_replace[next(i for i, b in enumerate(blocks_to_replace) if
b["id"] == block_id)]["name"]`: the name of the first block with the given id.
The `none` branch is unreachable for ids of recorded replacements (Python
would raise `StopIteration`). -/
def lookupName (blocks_to_replace : List Block) (id : String) : String :=
  match blocks_to_replace.find? (fun b => decide (b.id = id)) with
  | some b => b.name
  | none => ""

/-- The per-node body of `_replace_common_blocks_in_content`: returns the
node's `common_blocks_used` dict and its `processed_content`.  The source
records the used block and splices the content in a single loop over the
accepted replacements; the two folds below traverse the same list in the same
order. -/
def replaceBlocksInNode (blocks_to_replace : List Block) (node_url : Option String)
    (content : Content) : List (String × String) × Content :=
  let non_overlapping := appliedReplacements blocks_to_replace node_url content
  (non_overlapping.foldl
      (fun m r => dictInsert m r.block_id (lookupName blocks_to_replace r.block_id)) [],
   applyReplacements non_overlapping content)

/-! ## Node creation (`_create_nodes`, with the `urlparse` model and the
load / process skeleton of `process`) -/

/-- Model of `urllib.parse.urlparse(url).netloc` for the absolute
`http(s)://host/...` URLs produced by the crawler: the text between the first
`"://"` and the next `"/"`; empty when the URL has no `"://"`. -/
def urlNetloc (url : String) : String :=
  match pyFind url.data "://".data 0 with
  | none => ""
  | some i => String.mk ((url.data.drop (i + 3)).takeWhile (fun c => c ≠ '/'))

/-- Model of `urllib.parse.urlparse(url).path` for the same URL shape: the
part of the URL from the first `"/"` after the netloc (empty when there is
none); the whole string when the URL has no `"://"`. -/
def urlPath (url : String) : String :=
  match pyFind url.data "://".data 0 with
  | none => url
  | some i => String.mk ((url.data.drop (i + 3)).dropWhile (fun c => c ≠ '/'))

/-- The loop body of `_create_nodes` for one page.  The state is the master
node (mutated in place in Python; its aliases in `nodes_by_path` /
`nodes_by_url` are re-attached by `createNodes` below) together with the
dicts of page nodes keyed by path and by url. -/
def createStep (domain : String)
    (st : Node × List (String × Node) × List (String × Node)) (page : Page) :
    Node × List (String × Node) × List (String × Node) :=
  let master := st.1
  let byPath := st.2.1
  let byUrl := st.2.2
  let ppath := urlPath page.url
  if ppath = "/" ∨ ppath = "" then
    if page.url = "https://" ++ domain ++ "/" then
      ({ master with
          title := page.title, content := page.content,
          category := page.category, is_product := page.is_product },
       byPath, byUrl)
    else
      (master, byPath, byUrl)
  else
    let path := if "/".data.isPrefixOf ppath.data then ppath else "/" ++ ppath
    let node : Node :=
      { path := path, title := page.title, content := page.content,
        category := page.category, is_product := page.is_product,
        full_url := none }
    (master, dictInsert byPath path node, dictInsert byUrl page.url node)

/-- The result of `_create_nodes`. -/
structure CreateResult where
  domain : String
  master : Node
  nodesByPath : List (String × Node)
  nodesByUrl : List (String × Node)
  deriving DecidableEq, Repr

/-- `_create_nodes`: the domain comes from the first page (`self.pages[0]`
raises `IndexError` on an empty list, modelled as `none`); the master node is
created at path `"/"` with the generated `"<domain> Homepage"` title, and a
page updates it only when its URL path is `"/"` or `""` **and** its URL equals
`"https://" + domain + "/"` exactly.  All other pages become nodes with
`full_url = None`.  In Python `nodes_by_path["/"]` and
`nodes_by_url["https://" + domain + "/"]` alias the master object, so the
final master value is re-attached to those keys here. -/
def createNodes (pages : List Page) : Option CreateResult :=
  match pages with
  | [] => none
  | p₀ :: _ =>
    let domain := urlNetloc p₀.url
    let master₀ : Node :=
      { path := "/", title := domain ++ " Homepage", content := [],
        category := "root", is_product := false,
        full_url := some ("https://" ++ domain ++ "/") }
    let st := pages.foldl (createStep domain) (master₀, [], [])
    some { domain := domain, master := st.1,
           nodesByPath := ("/", st.1) :: st.2.1,
           nodesByUrl := ("https://" ++ domain ++ "/", st.1) :: st.2.2 }

/-- The observable outcome of the read-and-parse step of `_load_data`:
the file is missing (`FileNotFoundError`), its text is not valid JSON at the
top level (`json.JSONDecodeError`), or `json.loads` returned a page list. -/
inductive LoadInput where
  | missing
  | invalidJson
  | parsed (pages : List Page)
  deriving DecidableEq, Repr

/-- `_load_data`: the two exception types are caught and reported as a load
failure (`return False`); any parsed page list — including the empty one —
is accepted. -/
def loadData : LoadInput → Option (List Page)
  | .missing => none
  | .invalidJson => none
  | .parsed pages => some pages

/-- How one run of `process` ends, as far as hard failures are concerned. -/
inductive ProcessOutcome where
  | loadFailure
  | crash
  | success (r : CreateResult)
  deriving DecidableEq, Repr

/-- The failure skeleton of `process`: a load failure returns `False` before
any node creation; otherwise `_create_nodes` runs, and on an empty page list
`self.pages[0]["url"]` raises an uncaught `IndexError` (`crash`).  The later
stages raise no further exceptions on well-formed records. -/
def processModel (inp : LoadInput) : ProcessOutcome :=
  match loadData inp with
  | none => .loadFailure
  | some pages =>
    match createNodes pages with
    | none => .crash
    | some r => .success r

/-! ## Tree building (`_build_tree_structure`) -/

/-- Python `path.strip("/")`. -/
def pyStripSlash (s : Content) : Content :=
  ((s.dropWhile (fun c => c = '/')).reverse.dropWhile (fun c => c = '/')).reverse

/-- Python `s.split("/")` (single-character separator, keeping empty parts:
`"".split("/") == [""]`). -/
def splitOnSlash : Content → List Content
  | [] => [[]]
  | x :: xs =>
    match splitOnSlash xs with
    | [] => [[]]
    | s :: rest => if x = '/' then [] :: s :: rest else (x :: s) :: rest

/-- `"/" + "/".join(path_parts[:i]) + "/"`. -/
def joinedParentPath (parts : List Content) (i : Nat) : String :=
  String.mk ('/' :: (List.intercalate ['/'] (parts.take i) ++ ['/']))

/-- The parent-search loop `for i in range(len(path_parts)-1, -1, -1)`:
at index `0` the candidate parent is the root path `"/"`, otherwise
`"/" + "/".join(path_parts[:i]) + "/"`; the first candidate present in
`nodes_by_path` wins. -/
def findParentLoop (existsAt : String → Bool) (parts : List Content) :
    Nat → Option String
  | 0 => if existsAt "/" then some "/" else none
  | i + 1 =>
    if existsAt (joinedParentPath parts (i + 1)) then
      some (joinedParentPath parts (i + 1))
    else findParentLoop existsAt parts i

/-- Parent resolution for one non-root path: split the stripped path on `"/"`
and walk the truncations from the most specific down to the root. -/
def findParentPath (existsAt : String → Bool) (path : String) : Option String :=
  findParentLoop existsAt (splitOnSlash (pyStripSlash path.data))
    ((splitOnSlash (pyStripSlash path.data)).length - 1)

/-- Parent resolution against a concrete set of node paths
(`parent_path in self.nodes_by_path`). -/
def attachParentPath (nodePaths : List String) (path : String) : Option String :=
  findParentPath (fun q => nodePaths.contains q) path

/-- The path a node is attached under: the first existing ancestor, or the
master node (`"/"`) when the loop found none. -/
def parentOf (nodePaths : List String) (path : String) : String :=
  (attachParentPath nodePaths path).getD "/"

/-- `path_counts[path] += 1`, a `defaultdict(int)` update. -/
def bumpCount (counts : List (String × Nat)) (k : String) : List (String × Nat) :=
  if counts.any (fun p => decide (p.1 = k)) then
    counts.map (fun p => if p.1 = k then (p.1, p.2 + 1) else p)
  else
    counts ++ [(k, 1)]

/-- The duplicate-path check at the end of `_build_tree_structure`: count
`for path in self.nodes_by_path` — i.e. over the **keys** of the dict — and
keep the paths whose count exceeds one. -/
def duplicatePaths (nodes_by_path : List (String × Node)) : List String :=
  let path_counts := (nodes_by_path.map (fun kv => kv.1)).foldl bumpCount []
  (path_counts.filter (fun pc => decide (1 < pc.2))).map (fun pc => pc.1)

/-! ## Predefined block extraction (`_extract_predefined_blocks`) -/

/-- The literal header anchor. -/
def headerPattern : Content := "Przykłady instalacji produktów Roger".data

/-- The literal footer anchor. -/
def footerPattern : Content :=
  "Newsletter     Bądź na bieżąco   Na skróty       Wsparcie       Kontakt   Komunikaty".data

/-- The literal links-section anchor. -/
def linksPattern : Content := "Przydatne linki".data

/-- The `"Newsletter"` anchor used for footer/links boundaries. -/
def newsletterWord : Content := "Newsletter".data

/-- The header branch: pages whose content starts with the header anchor; if
they are a strict majority (`len(header_pages) > len(self.pages) / 2`), the
header block is the sample's text up to its first newline (or the first 38
characters when it has none), stripped. -/
def extractHeaderBlock (pages : List Page) (cb : List (String × BlockEntry)) :
    List (String × BlockEntry) :=
  let header_pages := pages.filter (fun p => headerPattern.isPrefixOf p.content)
  if 2 * header_pages.length > pages.length then
    match header_pages with
    | [] => cb
    | hp :: _ =>
      let sample := hp.content
      let header_end :=
        match pyFind sample ['\n'] 0 with
        | some n => n
        | none => 38
      dictInsert cb "header"
        { name := "site_header", type := "header",
          content := pyStrip (sample.take header_end),
          occurrences := header_pages.map (fun p => p.url),
          auto_detected := false, confidence := (0, 0) }
  else cb

/-- The footer branch: pages whose content ends with the footer anchor; on a
strict majority, the footer block runs from the last `"Newsletter"` of the
sample to its end, stripped. -/
def extractFooterBlock (pages : List Page) (cb : List (String × BlockEntry)) :
    List (String × BlockEntry) :=
  let footer_pages := pages.filter (fun p => footerPattern.isSuffixOf p.content)
  if 2 * footer_pages.length > pages.length then
    match footer_pages with
    | [] => cb
    | fp :: _ =>
      let sample := fp.content
      match pyRFind sample newsletterWord with
      | none => cb
      | some footer_start =>
        dictInsert cb "footer"
          { name := "site_footer", type := "footer",
            content := pyStrip (sample.drop footer_start),
            occurrences := footer_pages.map (fun p => p.url),
            auto_detected := false, confidence := (0, 0) }
  else cb

/-- The links branch: pages containing the links anchor; on more than two of
them, the block is the sample's text between the anchor and the following
`"Newsletter"` (skipped when either boundary is missing), stripped. -/
def extractLinksBlock (pages : List Page) (cb : List (String × BlockEntry)) :
    List (String × BlockEntry) :=
  let links_pages := pages.filter (fun p => containsSub p.content linksPattern)
  if links_pages.length > 2 then
    match links_pages with
    | [] => cb
    | lp :: _ =>
      let sample := lp.content
      match pyFind sample linksPattern 0 with
      | none => cb
      | some links_start =>
        match (if containsSub sample newsletterWord
               then pyFind sample newsletterWord links_start else none) with
        | none => cb
        | some links_end =>
          dictInsert cb "useful_links"
            { name := "useful_links", type := "links_section",
              content := pyStrip ((sample.take links_end).drop links_start),
              occurrences := links_pages.map (fun p => p.url),
              auto_detected := false, confidence := (0, 0) }
  else cb

/-- `_extract_predefined_blocks`: the three anchor-based branches in source
order, updating the registry dict. -/
def extractPredefinedBlocks (pages : List Page) : List (String × BlockEntry) :=
  extractLinksBlock pages (extractFooterBlock pages (extractHeaderBlock pages []))

/-! ## Similarity-based detection (`_detect_repeated_content_blocks`,
`_classify_content_block`) -/

/-- A content chunk produced by step 1 of the detector, tagged with its page.
The regex chunking itself (`re.split` with look-around patterns) is outside
the embedding; the detector below is stated for an arbitrary chunk list, so
every theorem about it covers the chunk lists the regex produces. -/
structure Chunk where
  url : String
  content : Content
  deriving DecidableEq, Repr

/-- A grouping of similar chunks: `{"representative": chunk1,
"similar_indices": [...], "occurrences": len(similar) + 1}`. -/
structure ChunkGroup where
  representative : Chunk
  similar_indices : List Nat
  occurrences : Nat
  deriving DecidableEq, Repr

/-- `MIN_OCCURRENCES = 3`. -/
def MIN_OCCURRENCES : Nat := 3

/-- `MAX_CHUNKS = 10000`. -/
def MAX_CHUNKS : Nat := 10000

/-- The body of the inner `for j, chunk2 in enumerate(all_chunks)` loop.
State: `(similar_chunks, urls_in_group, processed_indices)`.  A chunk is
skipped when it is the seed itself, already grouped, or from a page already in
the group; a similar chunk is appended and immediately marked processed. -/
def innerStep (sim : Content → Content → Bool) (c1 : Chunk) (i : Nat)
    (st : List Nat × List String × List Nat) (jc : Nat × Chunk) :
    List Nat × List String × List Nat :=
  let similar := st.1
  let urls := st.2.1
  let processed := st.2.2
  let j := jc.1
  let c2 := jc.2
  if i = j ∨ processed.contains j then st
  else if urls.contains c2.url then st
  else if sim c1.content c2.content then
    (similar ++ [j], urls ++ [c2.url], processed ++ [j])
  else st

/-- The outer grouping loop (step 2): each unprocessed seed chunk scans all
chunks for similar ones; a group is kept only when at least
`MIN_OCCURRENCES - 1` similar chunks were found, and the inner loop's
`processed_indices` additions persist even when the group is discarded. -/
def outerLoop (sim : Content → Content → Bool) (chunks : List Chunk) :
    List (Nat × Chunk) → List ChunkGroup → List Nat → List ChunkGroup
  | [], groups, _ => groups
  | (i, c1) :: rest, groups, processed =>
    if processed.contains i then outerLoop sim chunks rest groups processed
    else
      let st := chunks.enum.foldl (innerStep sim c1 i) ([], [c1.url], processed)
      if MIN_OCCURRENCES - 1 ≤ st.1.length then
        outerLoop sim chunks rest
          (groups ++ [{ representative := c1, similar_indices := st.1,
                        occurrences := st.1.length + 1 }])
          (st.2.2 ++ [i])
      else
        outerLoop sim chunks rest groups st.2.2

/-- Step 2 of the detector over a chunk list. -/
def chunkGroups (sim : Content → Content → Bool) (chunks : List Chunk) :
    List ChunkGroup :=
  outerLoop sim chunks chunks.enum [] []

/-- The ordered keyword table of `_classify_content_block`.  The keyword
"regexes" are all literal strings, so `re.search` is substring containment. -/
def classifyPatterns : List (String × List Content) :=
  [("navigation", ["rozwiązania".data, "produkty".data, "menu".data, "zastosowania".data]),
   ("product_list", ["racs".data, "produkty".data, "powiązane produkty".data]),
   ("contact_info", ["kontakt".data, "skontaktuj".data, "wsparcie".data]),
   ("links_section", ["przydatne linki".data, "gdzie kupić".data, "pobierz".data]),
   ("form_section", ["formularz".data, "rejestracja".data, "logowanie".data]),
   ("intro_section", ["wprowadzenie".data, "o produkcie".data, "charakterystyka".data]),
   ("case_study", ["przypadek".data, "realizacja".data, "wdrożenie".data, "case study".data]),
   ("key_features", ["charakterystyka".data, "cechy".data, "funkcje".data, "dostępne".data]),
   ("download_section", ["pobierz".data, "download".data, "pliki".data])]

/-- `content.lower()`; ASCII case folding suffices here because every keyword
is already lower-case and classification only influences generated names. -/
def pyLower (c : Content) : Content := c.map Char.toLower

/-- `_classify_content_block`: first keyword table row with a hit wins,
falling back to `"content_block"`. -/
def classifyContentBlock (content : Content) : String :=
  let content_lower := pyLower content
  match classifyPatterns.find?
      (fun row => row.2.any (fun kw => containsSub content_lower kw)) with
  | some row => row.1
  | none => "content_block"

/-- The registry entry built for one qualifying group in step 3
(`block_name = f"{block_type}_{i+1}"`, `occurrence_urls` = representative's
URL followed by the matched chunks' URLs). -/
def mkAutoEntry (chunks : List Chunk) (numPages : Nat) (i : Nat)
    (g : ChunkGroup) : BlockEntry :=
  { name := classifyContentBlock g.representative.content ++ "_" ++ toString (i + 1),
    type := classifyContentBlock g.representative.content,
    content := g.representative.content,
    occurrences := g.representative.url ::
      g.similar_indices.map (fun idx => (chunks.getD idx ⟨"", []⟩).url),
    auto_detected := true,
    confidence := (g.occurrences, numPages) }

/-- Step 3 (`for i, group in enumerate(chunk_groups)`): skip groups below
`MIN_OCCURRENCES`, otherwise add `auto_block_{i+1}` to the registry. -/
def classifyAndAdd (chunks : List Chunk) (numPages : Nat) :
    List (Nat × ChunkGroup) → List (String × BlockEntry) →
    List (String × BlockEntry)
  | [], cb => cb
  | (i, g) :: rest, cb =>
    if g.occurrences < MIN_OCCURRENCES then classifyAndAdd chunks numPages rest cb
    else
      classifyAndAdd chunks numPages rest
        (dictInsert cb ("auto_block_" ++ toString (i + 1))
          (mkAutoEntry chunks numPages i g))

/-- `_detect_repeated_content_blocks` from the chunk list onward: apply the
`MAX_CHUNKS` cap (longest chunks first), group by similarity, and promote the
qualifying groups into the registry `cb`.  `sim` stands for
`difflib.SequenceMatcher(None, a, b).ratio() >= SIMILARITY_THRESHOLD`. -/
def detectRepeatedContentBlocks (sim : Content → Content → Bool)
    (all_chunks : List Chunk) (numPages : Nat)
    (cb : List (String × BlockEntry)) : List (String × BlockEntry) :=
  let chunks :=
    if all_chunks.length > MAX_CHUNKS then
      (sortByDesc (fun c => c.content.length) all_chunks).take MAX_CHUNKS
    else all_chunks
  classifyAndAdd chunks numPages (chunkGroups sim chunks).enum cb

/-! ## The block-extraction stage (`_extract_common_blocks` and its call in
`process`) -/

/-- `_extract_common_blocks(self, use_ai=False)`: the predefined extraction
always runs; `_detect_repeated_content_blocks` runs only under `if use_ai:`.
The two booleans in the result record which of the two sub-steps executed
(`ranPredefined`, `ranDetection`), mirroring the control flow. -/
def extractCommonBlocks (sim : Content → Content → Bool)
    (chunker : List Page → List Chunk) (pages : List Page) (use_ai : Bool) :
    List (String × BlockEntry) × Bool × Bool :=
  let cb := extractPredefinedBlocks pages
  if use_ai then
    (detectRepeatedContentBlocks sim (chunker pages) pages.length cb, true, true)
  else
    (cb, true, false)

/-- The invocation in `process`: `self._extract_common_blocks()` — the `use_ai`
parameter is left at its default `False`. -/
def processBlockExtraction (sim : Content → Content → Bool)
    (chunker : List Page → List Chunk) (pages : List Page) :
    List (String × BlockEntry) × Bool × Bool :=
  extractCommonBlocks sim chunker pages false

/-! ## Helper lemmas -/

theorem mem_insertByDesc {α : Type} (key : α → Nat) (a : α) (l : List α) (x : α) :
    x ∈ insertByDesc key a l ↔ x = a ∨ x ∈ l := by
  induction l with
  | nil => simp [insertByDesc]
  | cons y ys ih =>
    simp only [insertByDesc]
    split
    · simp [List.mem_cons]
    · simp only [List.mem_cons, ih]
      tauto

theorem mem_sortByDesc {α : Type} (key : α → Nat) (l : List α) (x : α) :
    x ∈ sortByDesc key l ↔ x ∈ l := by
  induction l with
  | nil => simp [sortByDesc]
  | cons y ys ih => simp [sortByDesc, mem_insertByDesc, ih]

theorem pairwise_insertByDesc {α : Type} (key : α → Nat) (a : α) (l : List α)
    (h : l.Pairwise (fun x y => key y ≤ key x)) :
    (insertByDesc key a l).Pairwise (fun x y => key y ≤ key x) := by
  induction l with
  | nil => simp [insertByDesc]
  | cons y ys ih =>
    rcases List.pairwise_cons.mp h with ⟨hy, hys⟩
    simp only [insertByDesc]
    split
    · rename_i hle
      refine List.pairwise_cons.mpr ⟨?_, h⟩
      intro z hz
      rcases List.mem_cons.mp hz with rfl | hz'
      · exact hle
      · exact le_trans (hy z hz') hle
    · rename_i hlt
      push_neg at hlt
      refine List.pairwise_cons.mpr ⟨?_, ih hys⟩
      intro z hz
      rcases (mem_insertByDesc key a ys z).mp hz with rfl | hz'
      · exact le_of_lt hlt
      · exact hy z hz'

theorem pairwise_sortByDesc {α : Type} (key : α → Nat) (l : List α) :
    (sortByDesc key l).Pairwise (fun x y => key y ≤ key x) := by
  induction l with
  | nil => simp [sortByDesc]
  | cons y ys ih => exact pairwise_insertByDesc key y _ ih

/-- Membership in a replacement's claimed position range, as start/end bounds. -/
theorem mem_span (r : Replacement) (p : Nat) :
    p ∈ List.range' r.start (r.«end» - r.start) ↔ (r.start ≤ p ∧ p < r.«end») := by
  rw [List.mem_range'_1]
  omega

/-- Two replacement spans claim no common character position. -/
def spansDisjoint (a b : Replacement) : Prop :=
  ∀ p : Nat, (a.start ≤ p ∧ p < a.«end») → ¬ (b.start ≤ p ∧ p < b.«end»)

theorem removeOverlapping_sublist (l : List Replacement) (c : List Nat) :
    (removeOverlapping l c).Sublist l := by
  induction l generalizing c with
  | nil => simp [removeOverlapping]
  | cons r rs ih =>
    simp only [removeOverlapping]
    split
    · exact (ih c).cons r
    · exact (ih _).cons₂ r

theorem removeOverlapping_not_covered (l : List Replacement) (c : List Nat)
    (r' : Replacement) (h : r' ∈ removeOverlapping l c) (p : Nat)
    (hp : r'.start ≤ p ∧ p < r'.«end») : p ∉ c := by
  induction l generalizing c with
  | nil => simp [removeOverlapping] at h
  | cons r rs ih =>
    simp only [removeOverlapping] at h
    split at h
    · exact ih c h
    · rename_i hno
      rcases List.mem_cons.mp h with rfl | h'
      · intro hpc
        exact hno (List.any_eq_true.mpr ⟨p, (mem_span r' p).mpr hp, by simpa using hpc⟩)
      · intro hpc
        exact ih _ h' (List.mem_append_left _ hpc)

theorem removeOverlapping_pairwise (l : List Replacement) (c : List Nat) :
    (removeOverlapping l c).Pairwise spansDisjoint := by
  induction l generalizing c with
  | nil => simp [removeOverlapping]
  | cons r rs ih =>
    simp only [removeOverlapping]
    split
    · exact ih c
    · refine List.pairwise_cons.mpr ⟨?_, ih _⟩
      intro r' h' p hp hbp
      exact removeOverlapping_not_covered rs _ r' h' p hbp
        (List.mem_append_right c ((mem_span r p).mpr hp))

theorem pyFind_some (hay pat : Content) (s p : Nat) (h : pyFind hay pat s = some p) :
    s ≤ p ∧ matchesAt hay pat p = true := by
  have h' := List.find?_some h
  rw [Bool.and_eq_true] at h'
  exact ⟨of_decide_eq_true h'.1, h'.2⟩

theorem matchesAt_bound (hay pat : Content) (p : Nat) (hne : pat ≠ [])
    (h : matchesAt hay pat p = true) : p + pat.length ≤ hay.length := by
  unfold matchesAt at h
  have h' := of_decide_eq_true h
  have hlen := congrArg List.length h'
  rw [List.length_take, List.length_drop] at hlen
  have hpos : 0 < pat.length := List.length_pos.mpr hne
  omega

theorem mem_findReplLoop (content pat : Content) (name id : String)
    (fuel s : Nat) (r : Replacement)
    (h : r ∈ findReplLoop content pat name id fuel s) :
    r.block_id = id ∧ r.replacement = refToken name ∧
      r.«end» = r.start + pat.length ∧ matchesAt content pat r.start = true := by
  induction fuel generalizing s with
  | zero => simp [findReplLoop] at h
  | succ n ih =>
    rw [findReplLoop] at h
    cases hf : pyFind content pat s with
    | none => rw [hf] at h; simp at h
    | some p =>
      rw [hf] at h
      rcases List.mem_cons.mp h with rfl | h'
      · exact ⟨rfl, rfl, rfl, (pyFind_some content pat s p hf).2⟩
      · exact ih _ h'

theorem mem_collectReplacements (btr : List Block) (u : Option String) (c : Content)
    (r : Replacement) (h : r ∈ collectReplacements btr u c) :
    ∃ b ∈ btr, r.block_id = b.id ∧ r.replacement = refToken b.name ∧
      r.«end» = r.start + b.content.length ∧ matchesAt c b.content r.start = true := by
  unfold collectReplacements at h
  rcases List.mem_flatMap.mp h with ⟨b, hb, hr⟩
  have hfacts := mem_findReplLoop c b.content b.name b.id _ _ r hr
  exact ⟨b, List.mem_of_mem_filter hb, hfacts.1, hfacts.2.1, hfacts.2.2.1,
    hfacts.2.2.2⟩

theorem applyReplacements_append (l : List Replacement) (c d : Content)
    (hps : l.Pairwise (fun a b => b.«end» ≤ a.start))
    (hse : ∀ r ∈ l, r.start ≤ r.«end»)
    (hb : ∀ r ∈ l, r.«end» ≤ c.length) :
    applyReplacements l (c ++ d) = applyReplacements l c ++ d := by
  induction l generalizing c with
  | nil => simp [applyReplacements]
  | cons r rs ih =>
    rcases List.pairwise_cons.mp hps with ⟨hr, hrs⟩
    have hrc : r.«end» ≤ c.length := hb r (List.mem_cons_self r rs)
    have hrsc : r.start ≤ c.length :=
      le_trans (hse r (List.mem_cons_self r rs)) hrc
    simp only [applyReplacements]
    rw [List.take_append_of_le_length hrsc, List.drop_append_of_le_length hrc]
    rw [show c.take r.start ++ r.replacement ++ (c.drop r.«end» ++ d) =
        (c.take r.start ++ r.replacement ++ c.drop r.«end») ++ d by
      simp [List.append_assoc]]
    apply ih _ hrs
    · intro r' h'; exact hse r' (List.mem_cons_of_mem r h')
    · intro r' h'
      have h1 : r'.«end» ≤ r.start := hr r' h'
      have h2 : r.start ≤ (c.take r.start ++ r.replacement ++ c.drop r.«end»).length := by
        simp [List.length_append, List.length_take]
        omega
      exact le_trans h1 h2

theorem applyReplacements_token (l : List Replacement) (c : Content)
    (hps : l.Pairwise (fun a b => b.«end» ≤ a.start))
    (hse : ∀ r ∈ l, r.start ≤ r.«end»)
    (hb : ∀ r ∈ l, r.«end» ≤ c.length)
    (r : Replacement) (hr : r ∈ l) :
    ∃ u v, u ++ r.replacement ++ v = applyReplacements l c := by
  induction l generalizing c with
  | nil => simp at hr
  | cons r0 rs ih =>
    rcases List.pairwise_cons.mp hps with ⟨h0, hrs⟩
    have h0e : r0.«end» ≤ c.length := hb r0 (List.mem_cons_self r0 rs)
    have h0s : r0.start ≤ r0.«end» := hse r0 (List.mem_cons_self r0 rs)
    have htl : (c.take r0.start).length = r0.start := by
      rw [List.length_take]; omega
    have hbnd : ∀ r' ∈ rs, r'.«end» ≤ (c.take r0.start).length := by
      intro r' h'; rw [htl]; exact h0 r' h'
    have hse' : ∀ r' ∈ rs, r'.start ≤ r'.«end» :=
      fun r' h' => hse r' (List.mem_cons_of_mem r0 h')
    simp only [applyReplacements]
    rcases List.mem_cons.mp hr with rfl | hr'
    · rw [List.append_assoc,
        applyReplacements_append rs (c.take r.start) (r.replacement ++ c.drop r.«end»)
          hrs hse' hbnd]
      exact ⟨applyReplacements rs (c.take r.start), c.drop r.«end», by
        rw [List.append_assoc]⟩
    · apply ih _ hrs hse'
      · intro r' h'
        have h1 : r'.«end» ≤ r0.start := h0 r' h'
        have h2 : r0.start ≤ (c.take r0.start ++ r0.replacement ++ c.drop r0.«end»).length := by
          simp [List.length_append, List.length_take]
          omega
        exact le_trans h1 h2
      · exact hr'

theorem mem_appliedReplacements (btr : List Block) (u : Option String) (c : Content)
    (r : Replacement) (h : r ∈ appliedReplacements btr u c) :
    ∃ b ∈ btr, r.block_id = b.id ∧ r.replacement = refToken b.name ∧
      r.«end» = r.start + b.content.length ∧ matchesAt c b.content r.start = true := by
  unfold appliedReplacements at h
  have h1 := (removeOverlapping_sublist _ _).subset h
  exact mem_collectReplacements btr u c r ((mem_sortByDesc _ _ _).mp h1)

theorem appliedReplacements_start_le (btr : List Block) (u : Option String)
    (c : Content) (hne : ∀ b ∈ btr, b.content ≠ []) :
    ∀ r ∈ appliedReplacements btr u c, r.start < r.«end» ∧ r.«end» ≤ c.length := by
  intro r hr
  rcases mem_appliedReplacements btr u c r hr with ⟨b, hb, _, _, hend, hmatch⟩
  have hbne : b.content ≠ [] := hne b hb
  have hpos : 0 < b.content.length := List.length_pos.mpr hbne
  have hbnd := matchesAt_bound c b.content r.start hbne hmatch
  omega

theorem appliedReplacements_sorted (btr : List Block) (u : Option String)
    (c : Content) :
    (appliedReplacements btr u c).Pairwise (fun a b => b.start ≤ a.start) := by
  unfold appliedReplacements
  exact (pairwise_sortByDesc (fun r : Replacement => r.start) _).sublist
    (removeOverlapping_sublist _ _)

theorem appliedReplacements_ends_before (btr : List Block) (u : Option String)
    (c : Content) (hne : ∀ b ∈ btr, b.content ≠ []) :
    (appliedReplacements btr u c).Pairwise (fun a b => b.«end» ≤ a.start) := by
  have hs := appliedReplacements_sorted btr u c
  have hd : (appliedReplacements btr u c).Pairwise spansDisjoint :=
    removeOverlapping_pairwise _ _
  have hcomb := hs.and hd
  refine hcomb.imp_of_mem ?_
  intro a b ha hb hab
  rcases hab with ⟨hstart, hdisj⟩
  by_contra hcon
  push_neg at hcon
  have hapos := (appliedReplacements_start_le btr u c hne a ha).1
  exact hdisj a.start ⟨le_refl _, hapos⟩ ⟨hstart, hcon⟩

theorem dictInsert_mem {κ α : Type} [DecidableEq κ] (m : List (κ × α)) (k' : κ)
    (v' : α) (k : κ) (v : α) (h : (k, v) ∈ dictInsert m k' v') :
    (k, v) ∈ m ∨ (k = k' ∧ v = v') := by
  unfold dictInsert at h
  split at h
  · rcases List.mem_map.mp h with ⟨p, hp, heq⟩
    by_cases hpk : p.1 = k'
    · right
      rw [if_pos hpk] at heq
      exact ⟨congrArg Prod.fst heq.symm, congrArg Prod.snd heq.symm⟩
    · left
      rw [if_neg hpk] at heq
      exact heq ▸ hp
  · rcases List.mem_append.mp h with h' | h'
    · left; exact h'
    · right
      simp only [List.mem_singleton] at h'
      exact ⟨congrArg Prod.fst h', congrArg Prod.snd h'⟩

theorem foldl_dictInsert_mem {κ α β : Type} [DecidableEq κ] (f : β → κ) (g : β → α)
    (l : List β) (m₀ : List (κ × α)) (k : κ) (v : α)
    (h : (k, v) ∈ l.foldl (fun m r => dictInsert m (f r) (g r)) m₀) :
    (k, v) ∈ m₀ ∨ ∃ r ∈ l, k = f r ∧ v = g r := by
  induction l generalizing m₀ with
  | nil => left; simpa using h
  | cons r rs ih =>
    simp only [List.foldl_cons] at h
    rcases ih _ h with h' | ⟨r', hr', hkv⟩
    · rcases dictInsert_mem _ _ _ _ _ h' with h'' | ⟨hk, hv⟩
      · left; exact h''
      · right; exact ⟨r, List.mem_cons_self r rs, hk, hv⟩
    · right; exact ⟨r', List.mem_cons_of_mem r hr', hkv⟩

theorem find?_id_of_nodup (l : List Block) (hnd : (l.map (fun b => b.id)).Nodup)
    (b : Block) (hb : b ∈ l) :
    l.find? (fun b' => decide (b'.id = b.id)) = some b := by
  induction l with
  | nil => simp at hb
  | cons h t ih =>
    rw [List.map_cons, List.nodup_cons] at hnd
    rcases List.mem_cons.mp hb with rfl | hb'
    · rw [List.find?_cons_of_pos _ (by simp)]
    · have hneq : ¬ (h.id = b.id) := by
        intro he
        exact hnd.1 (he ▸ List.mem_map_of_mem (fun b => b.id) hb')
      rw [List.find?_cons_of_neg _ (by simpa using hneq)]
      exact ih hnd.2 hb'

theorem lookupName_eq (l : List Block) (hnd : (l.map (fun b => b.id)).Nodup)
    (b : Block) (hb : b ∈ l) : lookupName l b.id = b.name := by
  unfold lookupName
  rw [find?_id_of_nodup l hnd b hb]

theorem mem_of_mem_enum {α : Type} {l : List α} {i : Nat} {a : α}
    (h : (i, a) ∈ l.enum) : a ∈ l :=
  List.getElem?_mem (List.mk_mem_enum_iff_getElem?.mp h)
theorem outerLoop_mem (sim : Content → Content → Bool) (chunks : List Chunk)
    (rest : List (Nat × Chunk)) (groups : List ChunkGroup) (processed : List Nat)
    (g : ChunkGroup) (h : g ∈ outerLoop sim chunks rest groups processed) :
    g ∈ groups ∨ (g.occurrences = g.similar_indices.length + 1 ∧
      MIN_OCCURRENCES - 1 ≤ g.similar_indices.length) := by
  induction rest generalizing groups processed with
  | nil => left; simpa [outerLoop] using h
  | cons ic rest ih =>
    rcases ic with ⟨i, c1⟩
    rw [outerLoop] at h
    split at h
    · exact ih _ _ h
    · simp only [] at h
      split at h
      · rename_i hguard
        rcases ih _ _ h with hg | hnew
        · rcases List.mem_append.mp hg with hg' | hg''
          · left; exact hg'
          · right
            simp only [List.mem_singleton] at hg''
            subst hg''
            exact ⟨rfl, hguard⟩
        · right; exact hnew
      · exact ih _ _ h

theorem chunkGroups_occurrences (sim : Content → Content → Bool)
    (chunks : List Chunk) (g : ChunkGroup) (h : g ∈ chunkGroups sim chunks) :
    g.occurrences = g.similar_indices.length + 1 ∧
      MIN_OCCURRENCES - 1 ≤ g.similar_indices.length := by
  rcases outerLoop_mem sim chunks chunks.enum [] [] g h with h' | h'
  · simp at h'
  · exact h'

theorem classifyAndAdd_mem (chunks : List Chunk) (n : Nat)
    (l : List (Nat × ChunkGroup)) (cb : List (String × BlockEntry))
    (k : String) (e : BlockEntry) (h : (k, e) ∈ classifyAndAdd chunks n l cb) :
    (k, e) ∈ cb ∨ ∃ i g, (i, g) ∈ l ∧ ¬ (g.occurrences < MIN_OCCURRENCES) ∧
      e = mkAutoEntry chunks n i g := by
  induction l generalizing cb with
  | nil => left; simpa [classifyAndAdd] using h
  | cons ig rest ih =>
    rcases ig with ⟨i, g⟩
    rw [classifyAndAdd] at h
    split at h
    · rcases ih _ h with h' | ⟨i', g', hm, hocc, he⟩
      · left; exact h'
      · right; exact ⟨i', g', List.mem_cons_of_mem _ hm, hocc, he⟩
    · rename_i hguard
      rcases ih _ h with h' | ⟨i', g', hm, hocc, he⟩
      · rcases dictInsert_mem _ _ _ _ _ h' with h'' | ⟨hk, hv⟩
        · left; exact h''
        · right; exact ⟨i, g, List.mem_cons_self _ _, hguard, hv⟩
      · right; exact ⟨i', g', List.mem_cons_of_mem _ hm, hocc, he⟩

/-- C8: every registry entry created by the similarity-based detector comes
with at least `MIN_OCCURRENCES = 3` occurrence URLs — a similarity group whose
total occurrence count (representative plus matched chunks) is below 3 never
produces an entry; any other entry of the output was already in the incoming
registry `cb`.  Stated for every similarity predicate and every chunk list, so
it covers the chunk lists produced by the regex splitting step. -/
theorem c8_registry_entries_have_min_three_occurrences
    (sim : Content → Content → Bool)
    (all_chunks : List Chunk) (numPages : Nat) (cb : List (String × BlockEntry))
    (k : String) (e : BlockEntry)
    (h : (k, e) ∈ detectRepeatedContentBlocks sim all_chunks numPages cb) :
    (k, e) ∈ cb ∨ 3 ≤ e.occurrences.length := by
  unfold detectRepeatedContentBlocks at h
  rcases classifyAndAdd_mem _ _ _ _ _ _ h with h' | ⟨i, g, hm, hocc, he⟩
  · left; exact h'
  · right
    have hg := chunkGroups_occurrences sim _ g (mem_of_mem_enum hm)
    rw [he]
    simp only [mkAutoEntry, List.length_cons, List.length_map]
    simp only [MIN_OCCURRENCES] at hocc hg
    omega

/-! ## Master-node update lemmas (`_create_nodes` loop) -/

/-- The condition under which a page record updates the master node inside
`_create_nodes`: its URL path is the homepage path (`"/"` or `""`) **and** its
URL is exactly the canonical homepage URL `"https://" + domain + "/"`. -/
def homepageHit (domain : String) (p : Page) : Prop :=
  (urlPath p.url = "/" ∨ urlPath p.url = "") ∧ p.url = "https://" ++ domain ++ "/"

instance (domain : String) (p : Page) : Decidable (homepageHit domain p) := by
  unfold homepageHit
  infer_instance

/-- The master-node component of `createStep`. -/
def masterStep (domain : String) (master : Node) (page : Page) : Node :=
  if urlPath page.url = "/" ∨ urlPath page.url = "" then
    if page.url = "https://" ++ domain ++ "/" then
      { master with
          title := page.title, content := page.content,
          category := page.category, is_product := page.is_product }
    else master
  else master

theorem createStep_fst (domain : String)
    (st : Node × List (String × Node) × List (String × Node)) (page : Page) :
    (createStep domain st page).1 = masterStep domain st.1 page := by
  simp only [createStep, masterStep]
  split
  · split <;> rfl
  · rfl

theorem foldl_createStep_fst (domain : String) (l : List Page)
    (st : Node × List (String × Node) × List (String × Node)) :
    (l.foldl (createStep domain) st).1 = l.foldl (masterStep domain) st.1 := by
  induction l generalizing st with
  | nil => rfl
  | cons p ps ih =>
    simp only [List.foldl_cons]
    rw [ih, createStep_fst]

theorem masterStep_of_not_hit (domain : String) (m : Node) (p : Page)
    (h : ¬ homepageHit domain p) : masterStep domain m p = m := by
  unfold masterStep
  unfold homepageHit at h
  split
  · split
    · rename_i h1 h2
      exact absurd ⟨h1, h2⟩ h
    · rfl
  · rfl

theorem masterStep_of_hit (domain : String) (m : Node) (p : Page)
    (h : homepageHit domain p) :
    masterStep domain m p =
      { m with
          title := p.title, content := p.content,
          category := p.category, is_product := p.is_product } := by
  unfold masterStep
  rw [if_pos h.1, if_pos h.2]

theorem foldl_masterStep_of_no_hits (domain : String) (l : List Page) (m : Node)
    (h : ∀ q ∈ l, ¬ homepageHit domain q) : l.foldl (masterStep domain) m = m := by
  induction l generalizing m with
  | nil => rfl
  | cons p ps ih =>
    simp only [List.foldl_cons]
    rw [masterStep_of_not_hit domain m p (h p (List.mem_cons_self p ps))]
    exact ih m (fun q hq => h q (List.mem_cons_of_mem p hq))

theorem createStep_byPath_full_url (domain : String)
    (st : Node × List (String × Node) × List (String × Node)) (page : Page)
    (hinv : ∀ kv ∈ st.2.1, (kv : String × Node).2.full_url = none) :
    ∀ kv ∈ (createStep domain st page).2.1, kv.2.full_url = none := by
  intro kv hkv
  simp only [createStep] at hkv
  split at hkv
  · split at hkv <;> exact hinv kv hkv
  · rcases kv with ⟨k, v⟩
    rcases dictInsert_mem _ _ _ _ _ hkv with h' | ⟨hk, hv⟩
    · exact hinv _ h'
    · rw [hv]

theorem foldl_createStep_byPath_full_url (domain : String) (l : List Page)
    (st : Node × List (String × Node) × List (String × Node))
    (hinv : ∀ kv ∈ st.2.1, (kv : String × Node).2.full_url = none) :
    ∀ kv ∈ (l.foldl (createStep domain) st).2.1, kv.2.full_url = none := by
  induction l generalizing st with
  | nil => exact hinv
  | cons p ps ih =>
    simp only [List.foldl_cons]
    exact ih _ (createStep_byPath_full_url domain st p hinv)

/-! ## Concrete example inputs used by witnesses and counterexamples -/

/-- A concrete stand-in for the similarity predicate: exact equality (the
ratio of two equal strings is `1.0 ≥ 0.85`). -/
def eqSim : Content → Content → Bool := fun a b => decide (a = b)

/-- A concrete stand-in for the chunking step: one chunk per page. -/
def pageChunker : List Page → List Chunk :=
  fun ps => ps.map (fun p => { url := p.url, content := p.content })

/-- Three pages sharing one repeated chunk of content (and containing none of
the predefined anchors). -/
def c5Pages : List Page :=
  [{ url := "https://example.com/p1", title := "P1",
     content := "repeated boilerplate".data, category := "", is_product := false },
   { url := "https://example.com/p2", title := "P2",
     content := "repeated boilerplate".data, category := "", is_product := false },
   { url := "https://example.com/p3", title := "P3",
     content := "repeated boilerplate".data, category := "", is_product := false }]

/-- The registry entry the detector promotes for `c5Pages`. -/
def c8Entry : BlockEntry :=
  { name := "content_block_1", type := "content_block",
    content := "repeated boilerplate".data,
    occurrences := ["https://example.com/p1", "https://example.com/p2",
      "https://example.com/p3"],
    auto_detected := true, confidence := (3, 3) }

/-- A registered block whose content is the whole example node content. -/
def longFooterBlock : Block :=
  { id := "footer", name := "site_footer_long",
    content := "Welcome to the site footer text".data, occurrences := [],
    is_auto := true }

/-- A registered block whose content is a strict substring of
`longFooterBlock`'s content, occurring at offset 20. -/
def shortFooterBlock : Block :=
  { id := "embedded", name := "footer_short", content := "footer text".data,
    occurrences := [], is_auto := true }

/-- A node content equal to the longer block's content (so both blocks match
at overlapping positions). -/
def overlapContent : Content := "Welcome to the site footer text".data

/-- One page at a two-segment path. -/
def c6Pages : List Page :=
  [{ url := "https://example.com/docs/guide", title := "Guide",
     content := "guide text".data, category := "", is_product := false }]

/-- The master node `_create_nodes` builds for `c6Pages`. -/
def c6Master : Node :=
  { path := "/", title := "example.com Homepage", content := [],
    category := "root", is_product := false,
    full_url := some "https://example.com/" }

/-- The page node `_create_nodes` builds for `c6Pages`. -/
def c6Node : Node :=
  { path := "/docs/guide", title := "Guide", content := "guide text".data,
    category := "", is_product := false, full_url := none }

/-- The full `_create_nodes` result for `c6Pages`. -/
def c6Result : CreateResult :=
  { domain := "example.com", master := c6Master,
    nodesByPath := [("/", c6Master), ("/docs/guide", c6Node)],
    nodesByUrl := [("https://example.com/", c6Master),
      ("https://example.com/docs/guide", c6Node)] }

/-- A non-homepage page whose URL determines the domain `example.com`. -/
def c9PageX : Page :=
  { url := "https://example.com/x", title := "X", content := "x body".data,
    category := "", is_product := false }

/-- A page whose URL path resolves to the homepage path `"/"` but whose URL
(`http` scheme) differs from the canonical `"https://example.com/"`. -/
def c9PageHomeHttp : Page :=
  { url := "http://example.com/", title := "HomeTitle", content := "home".data,
    category := "h", is_product := true }

/-- A page whose URL is exactly the canonical homepage URL. -/
def c9PageHome : Page :=
  { url := "https://example.com/", title := "RealHome", content := "rh".data,
    category := "hc", is_product := true }

/-- Two page records mapping to the same path `/a`. -/
def c10PageA1 : Page :=
  { url := "https://example.com/a", title := "T1", content := "t1".data,
    category := "", is_product := false }

/-- The second record for path `/a` (created later, so it wins). -/
def c10PageA2 : Page :=
  { url := "https://example.com/a", title := "T2", content := "t2".data,
    category := "", is_product := false }

/-! ## Claim theorems -/

/-- C1: the claim says the rewriter replaces the longer block B's span and not
the embedded shorter block A's, leaving only the longer reference token.  The
code does the opposite: spans are filtered for overlap in **descending start
order**, so the embedded block's later-starting span is accepted first and the
longer block's span is discarded — on a node whose content equals B's content
(with A's content a substring at offset 20), the processed content carries
only the shorter token `[footer_short]` and `common_blocks_used` records only
the shorter block, contradicting the code's own comments ("ensures larger
blocks are replaced before smaller ones", "keeping the largest ones"). -/
theorem c1_rewriter_keeps_shorter_nested_block :
    (replaceBlocksInNode [longFooterBlock, shortFooterBlock] none overlapContent).2 =
      "Welcome to the site [footer_short]".data ∧
    (replaceBlocksInNode [longFooterBlock, shortFooterBlock] none overlapContent).1 =
      [("embedded", "footer_short")] := by
  exact ⟨by decide, by decide⟩

/-- C2: the set of replacement spans the rewriter actually applies to a node
is pairwise disjoint — no character position of the original content is
claimed by two applied spans. -/
theorem c2_applied_replacement_spans_pairwise_disjoint
    (blocks_to_replace : List Block) (node_url : Option String) (content : Content) :
    (appliedReplacements blocks_to_replace node_url content).Pairwise spansDisjoint :=
  removeOverlapping_pairwise _ _

/-- C3: every block id recorded in a node's `common_blocks_used` map comes
with its block name, and the reference token `[block_name]` literally appears
in the node's `processed_content`.  The hypotheses are the registry
invariants: block ids are dict keys (pairwise distinct) and block contents
are non-empty. -/
theorem c3_recorded_block_token_appears_in_processed_content
    (blocks_to_replace : List Block) (node_url : Option String) (content : Content)
    (hids : (blocks_to_replace.map (fun b => b.id)).Nodup)
    (hne : ∀ b ∈ blocks_to_replace, b.content ≠ [])
    (bid bname : String)
    (hmem : (bid, bname) ∈ (replaceBlocksInNode blocks_to_replace node_url content).1) :
    ∃ x y, x ++ refToken bname ++ y =
      (replaceBlocksInNode blocks_to_replace node_url content).2 := by
  have hfst : (replaceBlocksInNode blocks_to_replace node_url content).1 =
      (appliedReplacements blocks_to_replace node_url content).foldl
        (fun m r => dictInsert m r.block_id (lookupName blocks_to_replace r.block_id))
        [] := rfl
  have hsnd : (replaceBlocksInNode blocks_to_replace node_url content).2 =
      applyReplacements (appliedReplacements blocks_to_replace node_url content)
        content := rfl
  rw [hfst] at hmem
  rcases foldl_dictInsert_mem (fun r : Replacement => r.block_id)
      (fun r : Replacement => lookupName blocks_to_replace r.block_id) _ _ _ _ hmem
    with h | ⟨r, hr, hk, hv⟩
  · simp at h
  · rcases mem_appliedReplacements blocks_to_replace node_url content r hr
      with ⟨b, hb, hid, hrepl, hend, hmatch⟩
    have hlook : lookupName blocks_to_replace r.block_id = b.name := by
      rw [hid]; exact lookupName_eq blocks_to_replace hids b hb
    have hrtok : r.replacement = refToken bname := by
      rw [hv, hlook]; exact hrepl
    rw [hsnd, ← hrtok]
    have hbounds := appliedReplacements_start_le blocks_to_replace node_url content hne
    exact applyReplacements_token _ content
      (appliedReplacements_ends_before blocks_to_replace node_url content hne)
      (fun r' h' => le_of_lt (hbounds r' h').1)
      (fun r' h' => (hbounds r' h').2) r hr

/-- C3 witness: with the single block `longFooterBlock` registered and a node
content equal to its content, the id `"footer"` is recorded and the token
`[site_footer_long]` appears in the processed content. -/
theorem c3_witness_token_in_processed_content :
    ∃ x y, x ++ refToken "site_footer_long" ++ y =
      (replaceBlocksInNode [longFooterBlock] none overlapContent).2 :=
  c3_recorded_block_token_appears_in_processed_content [longFooterBlock] none
    overlapContent (by decide) (by decide) "footer" "site_footer_long" (by decide)

/-- C4: for every set of node paths containing `/a/b/` but not `/a/b/c/`, the
parent-resolution walk attaches the node at `/a/b/c/d/` under `/a/b/` — the
nearest existing ancestor — which is neither `/a/` nor the root. -/
theorem c4_nearest_existing_ancestor_attachment (nodePaths : List String)
    (h1 : nodePaths.contains "/a/b/" = true)
    (h2 : nodePaths.contains "/a/b/c/" = false) :
    parentOf nodePaths "/a/b/c/d/" = "/a/b/" ∧
    ("/a/b/" : String) ≠ "/a/" ∧ ("/a/b/" : String) ≠ "/" := by
  refine ⟨?_, by decide, by decide⟩
  unfold parentOf attachParentPath findParentPath
  rw [show splitOnSlash (pyStripSlash "/a/b/c/d/".data) =
      ["a".data, "b".data, "c".data, "d".data] from by decide]
  simp only [List.length_cons, List.length_nil]
  show (findParentLoop (fun q => nodePaths.contains q)
    ["a".data, "b".data, "c".data, "d".data] (3 + 1 - 1)).getD "/" = "/a/b/"
  simp only [Nat.add_sub_cancel]
  show (findParentLoop (fun q => nodePaths.contains q)
    ["a".data, "b".data, "c".data, "d".data] (2 + 1)).getD "/" = "/a/b/"
  rw [findParentLoop]
  rw [show joinedParentPath ["a".data, "b".data, "c".data, "d".data] (2 + 1) =
      "/a/b/c/" from by decide]
  rw [h2]
  show (findParentLoop (fun q => nodePaths.contains q)
    ["a".data, "b".data, "c".data, "d".data] (1 + 1)).getD "/" = "/a/b/"
  rw [findParentLoop]
  rw [show joinedParentPath ["a".data, "b".data, "c".data, "d".data] (1 + 1) =
      "/a/b/" from by decide]
  rw [h1]
  simp

/-- C4 witness: the concrete page set `{/, /a/, /a/b/, /a/b/c/d/}`. -/
theorem c4_witness_concrete_page_set :
    parentOf ["/", "/a/", "/a/b/", "/a/b/c/d/"] "/a/b/c/d/" = "/a/b/" :=
  (c4_nearest_existing_ancestor_attachment ["/", "/a/", "/a/b/", "/a/b/c/d/"]
    (by decide) (by decide)).1

/-- C5 counterexample: the claim says every run of the block-extraction stage
executes both sub-steps.  In the pipeline's run (`self._extract_common_blocks()`
with the default `use_ai=False`) the similarity-based detection sub-step does
not run: on a page set where detection would promote a block, the stage's
registry stays exactly the predefined one (here empty) and the detection flag
is `false`. -/
theorem c5_counterexample_detection_skipped_by_default :
    (processBlockExtraction eqSim pageChunker c5Pages).2.2 = false ∧
    (processBlockExtraction eqSim pageChunker c5Pages).1 = [] ∧
    detectRepeatedContentBlocks eqSim (pageChunker c5Pages) c5Pages.length [] ≠ [] := by
  exact ⟨rfl, by decide, by decide⟩

/-- C5 (amended): the block-extraction stage always runs the predefined
extraction, but the similarity-based auto-detection sub-step runs exactly when
`use_ai` is `true`; with the default `use_ai=False` (as invoked from
`process`) the registry is the predefined registry alone, with `use_ai=True`
it is the predefined registry extended by the detector. -/
theorem c5_predefined_always_runs_detection_gated_by_use_ai
    (sim : Content → Content → Bool) (chunker : List Page → List Chunk)
    (pages : List Page) (use_ai : Bool) :
    (extractCommonBlocks sim chunker pages use_ai).2.1 = true ∧
    (extractCommonBlocks sim chunker pages use_ai).2.2 = use_ai ∧
    (extractCommonBlocks sim chunker pages false).1 = extractPredefinedBlocks pages ∧
    (extractCommonBlocks sim chunker pages true).1 =
      detectRepeatedContentBlocks sim (chunker pages) pages.length
        (extractPredefinedBlocks pages) := by
  cases use_ai <;> exact ⟨rfl, rfl, rfl, rfl⟩

/-- C6 counterexample: the claim says any registered block whose exact content
occurs in a non-root node's content is replaced and recorded.  Here
`longFooterBlock`'s content occurs (it is the whole node content), yet only
the shorter embedded block is recorded — the longer block's span is dropped by
overlap resolution, so occurrence of a block's content does not guarantee
replacement. -/
theorem c6_counterexample_occurring_block_not_recorded :
    containsSub overlapContent longFooterBlock.content = true ∧
    (replaceBlocksInNode [longFooterBlock, shortFooterBlock] none overlapContent).1 =
      [("embedded", "footer_short")] ∧
    ("footer", "site_footer_long") ∉
      (replaceBlocksInNode [longFooterBlock, shortFooterBlock] none overlapContent).1 := by
  refine ⟨by decide, by decide, by decide⟩

/-- C6 (amended): every node other than the root has `full_url = None`, so the
rewriter's occurrence-membership test is vacuous for it — no block (predefined
or auto-detected) is skipped, and every exact occurrence of every registered
block's content is recorded as a candidate replacement span; a candidate is
then applied and recorded in `common_blocks_used` unless it is dropped by
overlap resolution. -/
theorem c6_nonroot_full_url_none_and_membership_test_vacuous :
    (∀ (pages : List Page) (r : CreateResult), createNodes pages = some r →
      ∀ kv ∈ r.nodesByPath, kv.1 ≠ "/" → kv.2.full_url = none) ∧
    (∀ b : Block, skipBlock none b = false) ∧
    (∀ (blocks_to_replace : List Block) (content : Content),
      collectReplacements blocks_to_replace none content =
        blocks_to_replace.flatMap
          (fun b => findReplLoop content b.content b.name b.id
            (content.length + 1) 0)) := by
  refine ⟨?_, fun b => rfl, ?_⟩
  · intro pages r hcr kv hkv hne
    cases pages with
    | nil => simp [createNodes] at hcr
    | cons p₀ ps =>
      rw [createNodes] at hcr
      injection hcr with hcr
      subst hcr
      simp only at hkv
      rcases List.mem_cons.mp hkv with rfl | h'
      · exact absurd rfl hne
      · exact foldl_createStep_byPath_full_url _ _ _ (by simp) kv h'
  · intro blocks_to_replace content
    unfold collectReplacements
    have hfilter : (fun b : Block => !skipBlock none b) = fun b : Block => true := by
      funext b; rfl
    rw [hfilter, List.filter_true]

/-- C6 witness: in the concrete page set `c6Pages` the node at `/docs/guide`
has `full_url = None`. -/
theorem c6_witness_nonroot_node_full_url_none : c6Node.full_url = none :=
  c6_nonroot_full_url_none_and_membership_test_vacuous.1 c6Pages c6Result
    (by decide) ("/docs/guide", c6Node) (by decide) (by decide)

/-- C7 counterexample: the claim says an empty page list is reported as a load
failure before any node creation.  In the code an empty parsed list passes
`_load_data` and the pipeline crashes afterwards (uncaught `IndexError` on
`self.pages[0]` inside `_create_nodes`), which is not the load-failure
outcome. -/
theorem c7_counterexample_empty_page_list_crashes_in_create_nodes :
    processModel (.parsed []) = .crash ∧
    ProcessOutcome.crash ≠ ProcessOutcome.loadFailure := by
  exact ⟨rfl, by decide⟩

/-- C7 (amended): a missing input file or top-level-invalid JSON is reported
as a load failure and aborts before any node creation; an empty parsed page
list, however, passes loading and raises an uncaught `IndexError` during node
creation — so the load step is not the only hard failure point.  Any
non-empty parsed page list proceeds past both failure points. -/
theorem c7_load_failure_semantics :
    processModel .missing = .loadFailure ∧
    processModel .invalidJson = .loadFailure ∧
    processModel (.parsed []) = .crash ∧
    ∀ ps : List Page, ps ≠ [] → ∃ r, processModel (.parsed ps) = .success r := by
  refine ⟨rfl, rfl, rfl, ?_⟩
  intro ps hne
  match ps, hne with
  | p :: t, _ => exact ⟨_, rfl⟩

/-- C7 witness: a concrete one-page list passes both failure points. -/
theorem c7_witness_nonempty_pages_succeed :
    ∃ r, processModel (.parsed [c9PageX]) = .success r :=
  c7_load_failure_semantics.2.2.2 [c9PageX] (by decide)

/-- C8 witness: on three equal chunks from three distinct pages, the detector
promotes one group, and the resulting registry entry has three occurrence
URLs. -/
theorem c8_witness_concrete_promoted_group : 3 ≤ c8Entry.occurrences.length :=
  (c8_registry_entries_have_min_three_occurrences eqSim (pageChunker c5Pages)
    c5Pages.length [] "auto_block_1" c8Entry (by decide)).resolve_left (by decide)

/-- C9 counterexample: the claim says every page whose URL resolves to the
homepage path overwrites the root's fields.  The page `http://example.com/`
resolves to path `"/"`, but its URL is not the exact canonical
`https://example.com/`, so the root keeps its generated placeholder title
instead of the page's title. -/
theorem c9_counterexample_homepage_path_without_exact_url_no_overwrite :
    (createNodes [c9PageX, c9PageHomeHttp]).map (fun r => r.master.title) =
      some "example.com Homepage" ∧
    urlPath c9PageHomeHttp.url = "/" ∧
    c9PageHomeHttp.title = "HomeTitle" := by
  exact ⟨by decide, by decide, rfl⟩

/-- C9 (amended): a page overwrites the synthesized root's title, content,
category and is_product exactly when its URL path is the homepage path **and**
its URL equals `"https://" + domain + "/"` verbatim; the last such page wins,
and when no page satisfies both conditions the root keeps the generated
`"<domain> Homepage"` title with empty content. -/
theorem c9_homepage_overwrite_requires_exact_canonical_url
    (p₀ : Page) (ps : List Page) :
    ((∀ q ∈ p₀ :: ps, ¬ homepageHit (urlNetloc p₀.url) q) →
      ∃ r, createNodes (p₀ :: ps) = some r ∧
        r.master.title = urlNetloc p₀.url ++ " Homepage" ∧
        r.master.content = [] ∧ r.master.category = "root" ∧
        r.master.is_product = false) ∧
    (∀ (pre : List Page) (p : Page) (post : List Page),
      p₀ :: ps = pre ++ p :: post →
      homepageHit (urlNetloc p₀.url) p →
      (∀ q ∈ post, ¬ homepageHit (urlNetloc p₀.url) q) →
      ∃ r, createNodes (p₀ :: ps) = some r ∧
        r.master.title = p.title ∧ r.master.content = p.content ∧
        r.master.category = p.category ∧ r.master.is_product = p.is_product) := by
  constructor
  · intro hnone
    refine ⟨_, rfl, ?_, ?_, ?_, ?_⟩ <;>
      simp only [createNodes] <;>
      rw [foldl_createStep_fst, foldl_masterStep_of_no_hits _ _ _ hnone]
  · intro pre p post heq hhit hpost
    refine ⟨_, rfl, ?_, ?_, ?_, ?_⟩ <;>
      simp only [createNodes] <;>
      rw [foldl_createStep_fst, heq, List.foldl_append] <;>
      simp only [List.foldl_cons] <;>
      rw [masterStep_of_hit _ _ _ hhit, foldl_masterStep_of_no_hits _ _ _ hpost]

/-- C9 witness: the page with the exact canonical URL `https://example.com/`
does overwrite the root's title. -/
theorem c9_witness_exact_url_overwrites :
    (createNodes [c9PageX, c9PageHome]).map (fun r => r.master.title) =
      some "RealHome" := by
  rcases (c9_homepage_overwrite_requires_exact_canonical_url c9PageX [c9PageHome]).2
      [c9PageX] c9PageHome [] rfl (by decide) (by simp)
    with ⟨r, hr, ht, _⟩
  rw [hr, Option.map_some', ht]
  rfl

/-- C10: with two page records mapping to the same path `/a`, only the
last-created node (title `T2`) survives in the path→node map — but the
duplicate-path check counts the **keys** of that map, which are unique by
construction, so `duplicate_paths` is empty and the promised warning can never
be reported.  This contradicts the code's own "Check for duplicate paths"
intent and the spec. -/
theorem c10_duplicate_paths_never_reported_last_node_survives :
    (createNodes [c9PageX, c10PageA1, c10PageA2]).map
      (fun r => r.nodesByPath.map (fun kv => (kv.1, kv.2.title))) =
        some [("/", "example.com Homepage"), ("/x", "X"), ("/a", "T2")] ∧
    (createNodes [c9PageX, c10PageA1, c10PageA2]).map
      (fun r => duplicatePaths r.nodesByPath) = some [] := by
  exact ⟨by decide, by decide⟩
